import Mathlib

/-!
A verification development for the tree-comparison engine of `dir-diff`
(`src/tree.cpp`, with its data types from `src/tree.hpp` and the ignore
filter contract from `src/main.cpp`).

The filesystem is modelled as a value: a filesystem entry is a regular
file (a byte list), a symlink (a target string, modelled as a byte
list), a special file, or a directory (an association list from child
names to entries).  Every entry carries the metadata `lstat` would
report: device number, inode number, and raw device number.  Device and
inode numbers are independent of content, which lets us state the
hard-link short-circuit claims (two entries with equal device+inode but
different bytes) that are hypothetical on a real filesystem.

`are_files_different` is instrumented: it returns the boolean verdict
together with the number of content bytes read from the two streams, so
that the "no byte is read before this short-circuit" claims are
statable.  The plain verdict is the first projection.
-/

namespace DirDiff

/-- Fields of `struct stat` used by `tree.cpp`: `st_dev`, `st_ino`, `st_rdev`. -/
structure EntryMeta where
  dev : Nat
  ino : Nat
  rdev : Nat
deriving DecidableEq, Repr

/-- A filesystem entry: the model of one `fs::directory_entry` together with
the subtree below it.  Children of a directory are an association list from
base names to entries, as enumerated by `fs::directory_iterator`. -/
inductive fsent where
  | regular (meta : EntryMeta) (content : List Nat)
  | symlink (meta : EntryMeta) (target : List Nat)
  | special (meta : EntryMeta)
  | directory (meta : EntryMeta) (children : List (String × fsent))
deriving Repr

/-- The subset of `fs::file_type` values distinguished by `tree.cpp`:
`regular`, `symlink`, `directory`, and everything else ("special"). -/
inductive file_type where
  | regular
  | symlink
  | special
  | directory
deriving DecidableEq, Repr

/-- `symlink_status().type()`: symlink-aware type classification, which never
follows symlinks (a symlink is a symlink no matter what it points at). -/
def fsent.ftype : fsent → file_type
  | .regular .. => .regular
  | .symlink .. => .symlink
  | .special .. => .special
  | .directory .. => .directory

/-- The `lstat` metadata of an entry. -/
def fsent.meta : fsent → EntryMeta
  | .regular m _ => m
  | .symlink m _ => m
  | .special m => m
  | .directory m _ => m

/-- `directory_entry::file_size()`.  Only ever consulted on regular files
(the `&&` in `tree.cpp` line 32 short-circuits otherwise); the value on
other entries is irrelevant. -/
def fsent.file_size : fsent → Nat
  | .regular _ c => c.length
  | _ => 0

/-- The byte content of a regular file (what streaming it would yield). -/
def fsent.content : fsent → List Nat
  | .regular _ c => c
  | _ => []

/-- `fs::read_symlink`: the link target of a symlink. -/
def fsent.target : fsent → List Nat
  | .symlink _ t => t
  | _ => []

/-- The children of a directory entry ([] on non-directories). -/
def fsent.children : fsent → List (String × fsent)
  | .directory _ ch => ch
  | _ => []

/-- The chunked comparison loop of `are_files_different` (`tree.cpp` lines
56-70): read up to 4096 bytes from each stream (`ifstream::read` followed by
`gcount`), compare the two chunks as `string_view`s of the lengths actually
read, return `true` on the first mismatch, and stop with `false` once either
side reports a short read with all chunks equal.  `a.take 4096` is the chunk
held in `a_buf`; its length is `gcount`, the number of bytes actually read.
The second component counts the content bytes read from the two streams
together. -/
def chunk_loop (a b : List Nat) : Bool × Nat :=
  if (a.take 4096) ≠ (b.take 4096) then
    (true, (a.take 4096).length + (b.take 4096).length)
  else if h : (a.take 4096).length < 4096 ∨ (b.take 4096).length < 4096 then
    (false, (a.take 4096).length + (b.take 4096).length)
  else
    let rest := chunk_loop (a.drop 4096) (b.drop 4096)
    (rest.1, (a.take 4096).length + (b.take 4096).length + rest.2)
termination_by a.length
decreasing_by
  simp only [List.length_drop, List.length_take, not_or, not_lt] at h ⊢
  omega

/-- `are_files_different` (`tree.cpp` lines 26-78).  Precondition (the
`assert` on line 28): both entries have the same symlink-aware type; the
function branches on `a`'s type, exactly as the source does.  Returns the
verdict together with the number of content bytes read (zero unless the
byte-comparison loop runs). -/
def are_files_different (a b : fsent) : Bool × Nat :=
  -- Regular files of different size are bound to be different (line 32)
  if a.ftype = .regular ∧ a.file_size ≠ b.file_size then
    (true, 0)
  -- Same inode on the same device are always the same (line 41)
  else if a.meta.dev = b.meta.dev ∧ a.meta.ino = b.meta.ino then
    (false, 0)
  -- Same target means symlinks are the same (line 47)
  else if a.ftype = .symlink then
    (decide (a.target ≠ b.target), 0)
  -- Same contents means regular files are the same (line 52)
  else if a.ftype = .regular then
    chunk_loop a.content b.content
  -- Same device numbers of special files means they are the same (line 77)
  else
    (decide (a.meta.rdev ≠ b.meta.rdev), 0)

/-- The plain verdict of the oracle. -/
def files_differ (a b : fsent) : Bool :=
  (are_files_different a b).1

/-- Modelled from the spec: `main.cpp` line 295 sets a global flag
`paranoid` (option `--paranoid`), but the declaration of that flag and the
code consulting it inside the oracle are not among the provided sources;
only the setter and the `--help` text are.  Per the spec ("when enabled,
skip the inode/device short-circuit entirely and always perform the full
byte/target comparison") and the `--help` text ("check file contents even
if files appear to be obviously different or same, ie. if the sizes differ
or if it's the same inode on the same device"), the paranoid flag disables
the size short-circuit and the device/inode short-circuit, leaving the rest
of `are_files_different` unchanged. -/
def are_files_different_paranoid (paranoid : Bool) (a b : fsent) : Bool × Nat :=
  if ¬paranoid ∧ a.ftype = .regular ∧ a.file_size ≠ b.file_size then
    (true, 0)
  else if ¬paranoid ∧ a.meta.dev = b.meta.dev ∧ a.meta.ino = b.meta.ino then
    (false, 0)
  else if a.ftype = .symlink then
    (decide (a.target ≠ b.target), 0)
  else if a.ftype = .regular then
    chunk_loop a.content b.content
  else
    (decide (a.meta.rdev ≠ b.meta.rdev), 0)

/-- The full comparison described by the spec, stated in the spec's own
terms for comparison with the code: symlinks compare by link target,
regular files byte-for-byte, special files by raw device number; metadata
short-circuits play no part. -/
def full_comparison (a b : fsent) : Bool :=
  match a.ftype with
  | .symlink => decide (a.target ≠ b.target)
  | .regular => decide (a.content ≠ b.content)
  | _ => decide (a.meta.rdev ≠ b.meta.rdev)

/-- `are_files_different` as it executes when opening a regular file fails
(permission denied, I/O error): `std::ifstream` constructed on an unopenable
path sets `failbit`, every subsequent `read` transfers nothing, and
`gcount()` returns 0 (`tree.cpp` lines 53-70 never test the stream state),
so the loop sees an empty stream.  The model replaces the contents of an
unreadable file by the empty byte list; everything else is unchanged.
The `lstat` calls on lines 37-38 likewise have no error check (the TODO on
line 35), so a failure there also cannot surface: the function's type has
no error outcome at all. -/
def are_files_different_unreadable (a_readable b_readable : Bool) (a b : fsent) : Bool × Nat :=
  if a.ftype = .regular ∧ a.file_size ≠ b.file_size then
    (true, 0)
  else if a.meta.dev = b.meta.dev ∧ a.meta.ino = b.meta.ino then
    (false, 0)
  else if a.ftype = .symlink then
    (decide (a.target ≠ b.target), 0)
  else if a.ftype = .regular then
    chunk_loop (if a_readable then a.content else [])
      (if b_readable then b.content else [])
  else
    (decide (a.meta.rdev ≠ b.meta.rdev), 0)

/-- `enum class diff_type` from `tree.hpp`. -/
inductive diff_type where
  | missing
  | file_type
  | contents
deriving DecidableEq, Repr

/-- `struct diff` from `tree.hpp`: a diff record.  `n` is 0 for an entry
absent from tree A, 1 for an entry absent from tree B, and -1 for the other
kinds.  Paths are modelled as lists of components; the defaulted fields
(`a_path = ""`, `b_path = ""`, `sub_diffs = {}`) are the empty list. -/
inductive diff where
  | mk (type : diff_type) (n : Int) (name : String) (a_path : List String)
      (b_path : List String) (sub_diffs : List diff)
deriving Repr

def diff.type : diff → diff_type
  | .mk t _ _ _ _ _ => t

def diff.n : diff → Int
  | .mk _ n _ _ _ _ => n

def diff.name : diff → String
  | .mk _ _ nm _ _ _ => nm

def diff.a_path : diff → List String
  | .mk _ _ _ p _ _ => p

def diff.b_path : diff → List String
  | .mk _ _ _ _ p _ => p

def diff.sub_diffs : diff → List diff
  | .mk _ _ _ _ _ s => s

/-- Mirroring of a diff record, for the symmetry property: swaps the two
sides, i.e. flips the side index of a `missing` record (0 becomes 1 and
1 becomes 0), swaps the two stored paths, and mirrors all sub-records. -/
def diff.mirror : diff → diff
  | .mk t n nm ap bp subs =>
    .mk t (if t = .missing then 1 - n else n) nm bp ap
      (subs.attach.map (fun d => diff.mirror d.1))
termination_by d => sizeOf d
decreasing_by
  have h1 := List.sizeOf_lt_of_mem d.2
  simp only [diff.mk.sizeOf_spec]
  omega

/-- The union of the child-name sets of the two directories (`tree.cpp`
lines 82-95).  The source collects the names into an `unordered_set` whose
iteration order is unspecified; the model fixes a canonical order by
sorting the deduplicated names, which is one legitimate iteration order of
that set. -/
def union_names (aCh bCh : List (String × fsent)) : List String :=
  List.insertionSort (· ≤ ·) ((aCh.map Prod.fst ++ bCh.map Prod.fst).dedup)

mutual

/-- `diff_trees` (`tree.cpp` lines 80-150): enumerate the children of the
two directories, take the union of the names, and process each name.
`ign` is the ignore filter (`should_ignore_file` from `main.cpp`, lines
102-111): it receives the path relative to the root, which is identical
for the two sides, since `should_ignore_file` strips `root1` from an
A-side path and `root2` from a B-side path.  `rel` is the relative path of
the current directory, `ap`/`bp` its two full paths. -/
def diff_trees (ign : List String → Bool) (rel ap bp : List String)
    (aCh bCh : List (String × fsent)) : List diff :=
  diff_children ign rel ap bp aCh bCh (union_names aCh bCh)
termination_by (sizeOf aCh, 2, 0)
decreasing_by
  simp_wf
  apply Prod.Lex.right
  apply Prod.Lex.left
  omega

/-- The loop over the union of the child names (`tree.cpp` lines 100-147),
emitting the concatenation of the records produced for each name. -/
def diff_children (ign : List String → Bool) (rel ap bp : List String)
    (aCh bCh : List (String × fsent)) : List String → List diff
  | [] => []
  | name :: rest =>
    diff_name ign rel ap bp aCh bCh name ++ diff_children ign rel ap bp aCh bCh rest
termination_by names => (sizeOf aCh, 1, names.length)
decreasing_by
  · simp_wf
    apply Prod.Lex.right
    apply Prod.Lex.left
    omega
  · simp_wf
    apply Prod.Lex.right
    apply Prod.Lex.right
    omega

/-- The body of the loop of `diff_trees` for one name (`tree.cpp` lines
100-146), as a case analysis on the two `unordered_map::find` results.
Notes kept from the source:
* lines 104-108: if the name is present on a side and `should_ignore_file`
  accepts that side's path, the name is skipped.  Line 107 spells its
  condition `b_it != a_children.end()`; in the targeted standard-library
  implementations the past-the-end iterator of every `unordered_map` holds
  the null node pointer, so that comparison behaves exactly as
  `b_it != b_children.end()`, i.e. as presence of the name on the B side,
  which is how it is modelled here.
* lines 110-115: exactly one side present: a `missing` record, with `n = 0`
  when the A side lacks the name and `n = 1` otherwise.
* both sides absent cannot occur for a name of the union (the `assert`s on
  lines 117-118); the model emits nothing in that unreachable case.
* lines 126-132: symlink-aware type comparison (`symlink_status`).
* lines 134-142: recursion for a pair of directories, emitting a `contents`
  record carrying both full paths only when the sub-diff is non-empty.
* lines 144-146: the oracle for same-type non-directory pairs. -/
def diff_name (ign : List String → Bool) (rel ap bp : List String)
    (aCh bCh : List (String × fsent)) (name : String) : List diff :=
  match h₁ : aCh.lookup name, h₂ : bCh.lookup name with
  | some a_child, some b_child =>
    if ign (rel ++ [name]) then []
    else if a_child.ftype ≠ b_child.ftype then
      [.mk .file_type (-1) name [] [] []]
    else if a_child.ftype = .directory then
      let sub := diff_trees ign (rel ++ [name]) (ap ++ [name]) (bp ++ [name])
        a_child.children b_child.children
      if sub.length ≠ 0 then
        [.mk .contents (-1) name (ap ++ [name]) (bp ++ [name]) sub]
      else []
    else if (are_files_different a_child b_child).1 then
      [.mk .contents (-1) name [] [] []]
    else []
  | some _, none => if ign (rel ++ [name]) then [] else [.mk .missing 1 name [] [] []]
  | none, some _ => if ign (rel ++ [name]) then [] else [.mk .missing 0 name [] [] []]
  | none, none => []
termination_by (sizeOf aCh, 0, 0)
decreasing_by
  simp_wf
  apply Prod.Lex.left
  have h3 : ∀ (l : List (String × fsent)), l.lookup name = some a_child →
      sizeOf a_child < sizeOf l := by
    intro l
    induction l with
    | nil =>
      intro hl
      simp [List.lookup] at hl
    | cons p t ih =>
      intro hl
      obtain ⟨k, w⟩ := p
      rw [List.lookup] at hl
      by_cases hk : (name == k)
      · rw [hk] at hl
        simp only [Option.some.injEq] at hl
        subst hl
        simp only [List.cons.sizeOf_spec, Prod.mk.sizeOf_spec]
        omega
      · rw [Bool.not_eq_true] at hk
        rw [hk] at hl
        have := ih hl
        simp only [List.cons.sizeOf_spec, Prod.mk.sizeOf_spec]
        omega
  have h4 : sizeOf a_child.children < sizeOf a_child := by
    cases a_child with
    | regular m c =>
      obtain ⟨x, y, z⟩ := m
      simp only [fsent.children, fsent.regular.sizeOf_spec, EntryMeta.mk.sizeOf_spec,
        List.nil.sizeOf_spec]
      omega
    | symlink m t =>
      obtain ⟨x, y, z⟩ := m
      simp only [fsent.children, fsent.symlink.sizeOf_spec, EntryMeta.mk.sizeOf_spec,
        List.nil.sizeOf_spec]
      omega
    | special m =>
      obtain ⟨x, y, z⟩ := m
      simp only [fsent.children, fsent.special.sizeOf_spec, EntryMeta.mk.sizeOf_spec,
        List.nil.sizeOf_spec]
      omega
    | directory m ch =>
      obtain ⟨x, y, z⟩ := m
      simp only [fsent.children, fsent.directory.sizeOf_spec, EntryMeta.mk.sizeOf_spec]
      omega
  have h5 := h3 aCh h₁
  omega

end

mutual

/-- The height of the real (non-symlink) directory tree below an entry:
0 for non-directories (symlinks included, whatever they point at), one more
than the height of the children for a directory. -/
def fsent.height : fsent → Nat
  | .directory _ ch => heightCh ch + 1
  | _ => 0

/-- The height of a children list: the maximum height of its entries. -/
def heightCh : List (String × fsent) → Nat
  | [] => 0
  | (_, v) :: t => max v.height (heightCh t)

end

mutual

/-- `diff_trees` with an explicit recursion budget: identical to
`diff_trees`, except that each level of recursion into a pair of
subdirectories consumes one unit of fuel, and the traversal reports `none`
when the fuel runs out.  Used to state that the recursion of `diff_trees`
is well-founded on the height of the real (non-symlink) directory tree:
symlinks are leaves of the model and are never descended into. -/
def diff_trees_fuel (ign : List String → Bool) (rel ap bp : List String)
    (aCh bCh : List (String × fsent)) : Nat → Option (List diff)
  | 0 => none
  | fuel + 1 => diff_children_fuel ign rel ap bp aCh bCh fuel (union_names aCh bCh)
termination_by fuel => (fuel, 0, 0)
decreasing_by
  simp_wf
  apply Prod.Lex.left
  omega

/-- Fuel-budgeted version of `diff_children`. -/
def diff_children_fuel (ign : List String → Bool) (rel ap bp : List String)
    (aCh bCh : List (String × fsent)) (fuel : Nat) : List String → Option (List diff)
  | [] => some []
  | name :: rest =>
    match diff_name_fuel ign rel ap bp aCh bCh fuel name with
    | none => none
    | some here =>
      match diff_children_fuel ign rel ap bp aCh bCh fuel rest with
      | none => none
      | some tail => some (here ++ tail)
termination_by names => (fuel, 1, names.length)
decreasing_by
  · simp_wf
    apply Prod.Lex.right
    apply Prod.Lex.left
    omega
  · simp_wf
    apply Prod.Lex.right
    apply Prod.Lex.right
    omega

/-- Fuel-budgeted version of `diff_name`: spending one unit of fuel on
each recursion into a pair of directories. -/
def diff_name_fuel (ign : List String → Bool) (rel ap bp : List String)
    (aCh bCh : List (String × fsent)) (fuel : Nat) (name : String) : Option (List diff) :=
  match aCh.lookup name, bCh.lookup name with
  | some a_child, some b_child =>
    if ign (rel ++ [name]) then some []
    else if a_child.ftype ≠ b_child.ftype then
      some [diff.mk .file_type (-1) name [] [] []]
    else if a_child.ftype = .directory then
      (diff_trees_fuel ign (rel ++ [name]) (ap ++ [name]) (bp ++ [name])
          a_child.children b_child.children fuel).map
        (fun sub =>
          if sub.length ≠ 0 then
            [diff.mk .contents (-1) name (ap ++ [name]) (bp ++ [name]) sub]
          else [])
    else if (are_files_different a_child b_child).1 then
      some [diff.mk .contents (-1) name [] [] []]
    else some []
  | some _, none =>
    some (if ign (rel ++ [name]) then [] else [diff.mk .missing 1 name [] [] []])
  | none, some _ =>
    some (if ign (rel ++ [name]) then [] else [diff.mk .missing 0 name [] [] []])
  | none, none => some []
termination_by (fuel, 0, 1)
decreasing_by
  simp_wf
  apply Prod.Lex.right
  apply Prod.Lex.right
  omega

end

/-- Correctness of the chunked comparison loop: it reports `true` exactly
when the two byte lists differ (in particular, lists of different lengths
are never reported equal). -/
theorem chunk_loop_correct (a b : List Nat) : (chunk_loop a b).1 = decide (a ≠ b) := by
  by_cases hne : a.take 4096 = b.take 4096
  · by_cases hshort : (a.take 4096).length < 4096 ∨ (b.take 4096).length < 4096
    · have key : ∀ (x y : List Nat), x.take 4096 = y.take 4096 →
          (x.take 4096).length < 4096 → x = y := by
        intro x y hxy hx
        have hx' : x.take 4096 = x := by
          apply List.take_of_length_le
          simp only [List.length_take] at hx
          omega
        have hylen : (y.take 4096).length < 4096 := hxy ▸ hx
        have hy' : y.take 4096 = y := by
          apply List.take_of_length_le
          simp only [List.length_take] at hylen
          omega
        rw [← hx', hxy, hy']
      have hab : a = b := by
        rcases hshort with h | h
        · exact key a b hne h
        · exact (key b a hne.symm h).symm
      subst hab
      have hb : a.length < 4096 := by
        rcases hshort with h | h <;> (simp only [List.length_take] at h; omega)
      rw [chunk_loop.eq_def]
      simp [hb]
    · have ih := chunk_loop_correct (a.drop 4096) (b.drop 4096)
      have hdrop : (a.drop 4096 = b.drop 4096) ↔ (a = b) := by
        constructor
        · intro hd
          rw [← List.take_append_drop 4096 a, ← List.take_append_drop 4096 b, hne, hd]
        · intro h
          rw [h]
      have htail : (chunk_loop (a.drop 4096) (b.drop 4096)).1 = decide (a ≠ b) := by
        rw [ih]
        exact decide_eq_decide.mpr (not_congr hdrop)
      have halen : ¬ a.length < 4096 := by
        simp only [List.length_take, not_or, not_lt] at hshort
        omega
      have hblen : ¬ b.length < 4096 := by
        simp only [List.length_take, not_or, not_lt] at hshort
        omega
      rw [chunk_loop.eq_def]
      simp [hne, hshort, htail, halen, hblen]
  · have hab : a ≠ b := fun h => hne (by rw [h])
    rw [chunk_loop.eq_def]
    simp [hne, hab]
termination_by a.length
decreasing_by
  simp only [List.length_drop, List.length_take, not_or, not_lt] at hshort ⊢
  omega

/-- C4: in non-paranoid mode `are_files_different` applies its
short-circuits in strict order: a pair of regular files of different sizes
is reported different with zero bytes read, whatever its device and inode
numbers (the inode check does not get to decide); otherwise any same-type
non-directory pair whose device and inode numbers both match is reported
identical with zero bytes read, before any link-target or byte
comparison. -/
theorem C4_short_circuit_order :
    (∀ (m₁ m₂ : EntryMeta) (ca cb : List Nat), ca.length ≠ cb.length →
      are_files_different (.regular m₁ ca) (.regular m₂ cb) = (true, 0)) ∧
    (∀ (a b : fsent), a.ftype = b.ftype → a.ftype ≠ .directory →
      (a.ftype = .regular → a.file_size = b.file_size) →
      a.meta.dev = b.meta.dev → a.meta.ino = b.meta.ino →
      are_files_different a b = (false, 0)) := by
  constructor
  · intro m₁ m₂ ca cb hne
    simp [are_files_different, fsent.ftype, fsent.file_size, hne]
  · intro a b _ _ hsize hdev hino
    have h1 : ¬(a.ftype = .regular ∧ a.file_size ≠ b.file_size) := by
      rintro ⟨hr, hs⟩
      exact hs (hsize hr)
    simp [are_files_different, h1, hdev, hino]

/-- Witness for C4: a pair of regular files of sizes 1 and 0 on the same
device and inode is reported different with no byte read, and a pair of
hard-linked symlinks with different targets is reported identical with no
byte read. -/
theorem C4_short_circuit_order_witness :
    are_files_different (.regular ⟨3, 4, 0⟩ [1]) (.regular ⟨3, 4, 0⟩ []) = (true, 0) ∧
    are_files_different (.symlink ⟨1, 2, 0⟩ [5]) (.symlink ⟨1, 2, 0⟩ [9]) = (false, 0) :=
  ⟨C4_short_circuit_order.1 ⟨3, 4, 0⟩ ⟨3, 4, 0⟩ [1] [] (by decide),
   C4_short_circuit_order.2 (.symlink ⟨1, 2, 0⟩ [5]) (.symlink ⟨1, 2, 0⟩ [9])
     (by decide) (by decide) (by intro h; exact absurd h (by decide)) (by decide) (by decide)⟩

/-- C5: the byte-comparison stage of `are_files_different` streams the two
regular files in 4096-byte chunks and reports `true` exactly when the byte
contents differ: `true` at the first unequal chunk pair (chunk lengths
included in the comparison), `false` only when all chunk pairs are equal
and both streams end at the same total length, so that files of different
lengths are never reported equal by this stage; consequently a pair of
regular files of equal size that is not eliminated by the device/inode
short-circuit is reported different exactly when its byte contents
differ. -/
theorem C5_byte_comparison_exact :
    (∀ (ca cb : List Nat), (chunk_loop ca cb).1 = decide (ca ≠ cb)) ∧
    (∀ (m₁ m₂ : EntryMeta) (ca cb : List Nat), ca.length = cb.length →
      ¬(m₁.dev = m₂.dev ∧ m₁.ino = m₂.ino) →
      (are_files_different (.regular m₁ ca) (.regular m₂ cb)).1 = decide (ca ≠ cb)) := by
  constructor
  · exact chunk_loop_correct
  · intro m₁ m₂ ca cb hlen hino
    have h1 : ¬((fsent.regular m₁ ca).ftype = .regular ∧
        (fsent.regular m₁ ca).file_size ≠ (fsent.regular m₂ cb).file_size) := by
      simp [fsent.ftype, fsent.file_size, hlen]
    simp [are_files_different, h1, fsent.ftype, fsent.meta, fsent.content, fsent.file_size,
      hlen, hino, chunk_loop_correct]

/-- Witness for C5: two one-byte regular files, same length, distinct
inodes, different contents, are reported different. -/
theorem C5_byte_comparison_exact_witness :
    (are_files_different (.regular ⟨0, 0, 0⟩ [1]) (.regular ⟨0, 1, 0⟩ [2])).1 =
      decide (([1] : List Nat) ≠ [2]) :=
  C5_byte_comparison_exact.2 ⟨0, 0, 0⟩ ⟨0, 1, 0⟩ [1] [2] (by decide) (by decide)

/-- C1: with paranoid mode enabled (spec-modelled, see
`are_files_different_paranoid`) the oracle skips the device/inode
short-circuit entirely and always performs the full comparison:
byte-for-byte streaming for regular files, link-target comparison for
symlinks; its verdict equals the full-comparison verdict even for
hard-linked pairs with identical device and inode numbers. -/
theorem C1_paranoid_forces_full_comparison (a b : fsent)
    (hty : a.ftype = b.ftype) (hdir : a.ftype ≠ .directory) :
    (are_files_different_paranoid true a b).1 = full_comparison a b := by
  clear hty hdir
  cases ha : a.ftype with
  | regular => simp [are_files_different_paranoid, full_comparison, ha, chunk_loop_correct]
  | symlink => simp [are_files_different_paranoid, full_comparison, ha]
  | special => simp [are_files_different_paranoid, full_comparison, ha]
  | directory => simp [are_files_different_paranoid, full_comparison, ha]

/-- Witness for C1: two hard-linked regular files (same device 7, same
inode 9) with different bytes are still compared by content under paranoid
mode, and that full comparison reports them different. -/
theorem C1_paranoid_forces_full_comparison_witness :
    (are_files_different_paranoid true (fsent.regular ⟨7, 9, 0⟩ [1, 2])
        (fsent.regular ⟨7, 9, 0⟩ [3, 4])).1 =
      full_comparison (fsent.regular ⟨7, 9, 0⟩ [1, 2]) (fsent.regular ⟨7, 9, 0⟩ [3, 4]) ∧
    full_comparison (fsent.regular ⟨7, 9, 0⟩ [1, 2]) (fsent.regular ⟨7, 9, 0⟩ [3, 4]) = true :=
  ⟨C1_paranoid_forces_full_comparison (fsent.regular ⟨7, 9, 0⟩ [1, 2])
      (fsent.regular ⟨7, 9, 0⟩ [3, 4]) (by decide) (by decide),
   by decide⟩

/-- C3 (code bug): two regular files of equal size on distinct inodes,
both unreadable (open fails, every read yields `gcount() = 0`), are
silently reported identical — `(false, 0)` — rather than propagating a
filesystem error.  The faithful oracle cannot surface errors at all: its
result type has no error outcome, the `lstat` results are used unchecked
(the TODO on `tree.cpp` line 35), and the stream state is never tested. -/
theorem C3_read_failure_reported_as_identical :
    are_files_different_unreadable false false
      (fsent.regular ⟨0, 0, 0⟩ [1]) (fsent.regular ⟨0, 1, 0⟩ [2]) = (false, 0) := by
  have h0 : chunk_loop [] [] = (false, 0) := by
    rw [chunk_loop.eq_def]
    simp
  simp [are_files_different_unreadable, fsent.ftype, fsent.file_size, fsent.meta, h0]

/-- A successful map lookup means the key occurs among the child names. -/
theorem mem_map_fst_of_lookup {l : List (String × fsent)} {key : String} {v : fsent}
    (h : l.lookup key = some v) : key ∈ l.map Prod.fst := by
  induction l with
  | nil => simp [List.lookup] at h
  | cons p t ih =>
    obtain ⟨k, w⟩ := p
    rw [List.lookup] at h
    by_cases hk : (key == k)
    · have : key = k := eq_of_beq hk
      simp [this]
    · rw [Bool.not_eq_true] at hk
      rw [hk] at h
      simp [ih h]

/-- A key absent from the child names is not found. -/
theorem lookup_eq_none_of_not_mem {l : List (String × fsent)} {key : String}
    (h : key ∉ l.map Prod.fst) : l.lookup key = none := by
  cases hl : l.lookup key with
  | none => rfl
  | some v => exact absurd (mem_map_fst_of_lookup hl) h

/-- Membership in the union of child names. -/
theorem mem_union_names_iff {aCh bCh : List (String × fsent)} {name : String} :
    name ∈ union_names aCh bCh ↔ name ∈ aCh.map Prod.fst ∨ name ∈ bCh.map Prod.fst := by
  unfold union_names
  rw [(List.perm_insertionSort _ _).mem_iff, List.mem_dedup, List.mem_append]

/-- The union of child names has no duplicates. -/
theorem union_names_nodup (aCh bCh : List (String × fsent)) :
    (union_names aCh bCh).Nodup := by
  unfold union_names
  exact (List.perm_insertionSort _ _).nodup_iff.mpr (List.nodup_dedup _)

/-- Every record emitted for a name carries that name. -/
theorem diff_name_name (ign : List String → Bool) (rel ap bp : List String)
    (aCh bCh : List (String × fsent)) (name : String) :
    ∀ d ∈ diff_name ign rel ap bp aCh bCh name, d.name = name := by
  intro d hd
  rw [diff_name] at hd
  repeat' split at hd
  all_goals simp_all [diff.name]

/-- The records of one name's block survive filtering for that name. -/
theorem filter_diff_name_self (ign : List String → Bool) (rel ap bp : List String)
    (aCh bCh : List (String × fsent)) (name : String) :
    (diff_name ign rel ap bp aCh bCh name).filter (fun d => d.name == name) =
      diff_name ign rel ap bp aCh bCh name := by
  apply List.filter_eq_self.mpr
  intro d hd
  rw [diff_name_name ign rel ap bp aCh bCh name d hd]
  simp

/-- The records of another name's block are dropped when filtering. -/
theorem filter_diff_name_other (ign : List String → Bool) (rel ap bp : List String)
    (aCh bCh : List (String × fsent)) {name' name : String} (hne : name' ≠ name) :
    (diff_name ign rel ap bp aCh bCh name').filter (fun d => d.name == name) = [] := by
  apply List.filter_eq_nil_iff.mpr
  intro d hd
  rw [diff_name_name ign rel ap bp aCh bCh name' d hd]
  simp [hne]

/-- Filtering the loop's output for one name extracts that name's block. -/
theorem filter_diff_children (ign : List String → Bool) (rel ap bp : List String)
    (aCh bCh : List (String × fsent)) (name : String) :
    ∀ (names : List String), names.Nodup →
      (diff_children ign rel ap bp aCh bCh names).filter (fun d => d.name == name) =
        if name ∈ names then diff_name ign rel ap bp aCh bCh name else [] := by
  intro names
  induction names with
  | nil =>
    intro _
    rw [diff_children]
    simp
  | cons n rest ih =>
    intro hnodup
    rw [diff_children, List.filter_append, ih (List.Nodup.of_cons hnodup)]
    by_cases hn : n = name
    · subst hn
      have hnotmem : n ∉ rest := (List.nodup_cons.mp hnodup).1
      simp [filter_diff_name_self, hnotmem]
    · rw [filter_diff_name_other ign rel ap bp aCh bCh hn, List.nil_append]
      have hne' : ¬ (name = n) := fun h => hn h.symm
      simp [List.mem_cons, hne']

/-- Filtering the output of `diff_trees` for a name yields exactly that
name's block (and nothing at all for a name outside the union). -/
theorem filter_diff_trees (ign : List String → Bool) (rel ap bp : List String)
    (aCh bCh : List (String × fsent)) (name : String) :
    (diff_trees ign rel ap bp aCh bCh).filter (fun d => d.name == name) =
      diff_name ign rel ap bp aCh bCh name := by
  rw [diff_trees, filter_diff_children ign rel ap bp aCh bCh name _
    (union_names_nodup aCh bCh)]
  by_cases hmem : name ∈ union_names aCh bCh
  · rw [if_pos hmem]
  · rw [if_neg hmem]
    have hor := fun h => hmem (mem_union_names_iff.mpr h)
    have hna : aCh.lookup name = none :=
      lookup_eq_none_of_not_mem (fun hm => hor (Or.inl hm))
    have hnb : bCh.lookup name = none :=
      lookup_eq_none_of_not_mem (fun hm => hor (Or.inr hm))
    rw [diff_name]
    split
    all_goals simp_all

/-- C2: a name whose relative path the ignore filter accepts is excluded
from the output of `diff_trees` entirely — no record of any kind is emitted
for it (`should_ignore_file` receives the same root-relative path for the
A side and the B side, so acceptance on either side is acceptance of this
one path). -/
theorem C2_ignored_name_excluded (ign : List String → Bool) (rel ap bp : List String)
    (aCh bCh : List (String × fsent)) (name : String)
    (hig : ign (rel ++ [name]) = true) :
    (diff_trees ign rel ap bp aCh bCh).filter (fun d => d.name == name) = [] := by
  rw [filter_diff_trees, diff_name]
  split
  all_goals simp_all

/-- Witness for C2: with a filter that ignores everything, a name present
on both sides (with differing entries) produces no record. -/
theorem C2_ignored_name_excluded_witness :
    (diff_trees (fun _ => true) [] [] [] [("x", fsent.special ⟨0, 0, 0⟩)]
        [("x", fsent.regular ⟨0, 1, 0⟩ [1])]).filter (fun d => d.name == "x") = [] :=
  C2_ignored_name_excluded (fun _ => true) [] [] []
    [("x", fsent.special ⟨0, 0, 0⟩)] [("x", fsent.regular ⟨0, 1, 0⟩ [1])] "x" rfl

/-- C6: a non-ignored name present on both sides whose symlink-aware types
differ yields exactly one `file_type` (TypeMismatch) record — with no
children and no paths, hence no recursion and no content comparison — in
particular for a symlink on one side and a real directory on the other. -/
theorem C6_type_mismatch_single_record (ign : List String → Bool) (rel ap bp : List String)
    (aCh bCh : List (String × fsent)) (name : String) (a_child b_child : fsent)
    (h₁ : aCh.lookup name = some a_child) (h₂ : bCh.lookup name = some b_child)
    (hig : ign (rel ++ [name]) = false) (hty : a_child.ftype ≠ b_child.ftype) :
    (diff_trees ign rel ap bp aCh bCh).filter (fun d => d.name == name) =
      [diff.mk .file_type (-1) name [] [] []] := by
  rw [filter_diff_trees, diff_name]
  split
  all_goals simp_all

/-- Witness for C6: a symlink pointing at a directory on the A side and a
real directory of the same name on the B side yield exactly one
TypeMismatch record, and the symlink is not descended into. -/
theorem C6_type_mismatch_single_record_witness :
    (diff_trees (fun _ => false) [] [] [] [("x", fsent.symlink ⟨0, 0, 0⟩ [2])]
        [("x", fsent.directory ⟨0, 1, 0⟩ [])]).filter (fun d => d.name == "x") =
      [diff.mk .file_type (-1) "x" [] [] []] :=
  C6_type_mismatch_single_record (fun _ => false) [] [] []
    [("x", fsent.symlink ⟨0, 0, 0⟩ [2])] [("x", fsent.directory ⟨0, 1, 0⟩ [])] "x"
    (fsent.symlink ⟨0, 0, 0⟩ [2]) (fsent.directory ⟨0, 1, 0⟩ [])
    (by simp [List.lookup]) (by simp [List.lookup]) rfl (by decide)

/-- C7: a non-ignored name that is a directory on both sides is recursed
into; a non-empty recursive result yields exactly one `contents`
(ContentDiff) record carrying both full paths and the recursive result as
children, while an empty recursive result yields no record at all. -/
theorem C7_directory_recursion (ign : List String → Bool) (rel ap bp : List String)
    (aCh bCh : List (String × fsent)) (name : String) (a_child b_child : fsent)
    (h₁ : aCh.lookup name = some a_child) (h₂ : bCh.lookup name = some b_child)
    (hig : ign (rel ++ [name]) = false)
    (hda : a_child.ftype = .directory) (hdb : b_child.ftype = .directory) :
    (diff_trees ign rel ap bp aCh bCh).filter (fun d => d.name == name) =
      (if (diff_trees ign (rel ++ [name]) (ap ++ [name]) (bp ++ [name])
            a_child.children b_child.children).length = 0 then []
       else [diff.mk .contents (-1) name (ap ++ [name]) (bp ++ [name])
          (diff_trees ign (rel ++ [name]) (ap ++ [name]) (bp ++ [name])
            a_child.children b_child.children)]) := by
  rw [filter_diff_trees, diff_name]
  split
  all_goals simp_all
  rw [h₁, h₂]

/-- Witness for C7: two directories of the same name whose subtrees are
identical (both empty) produce no record, even though the recursion
happens. -/
theorem C7_directory_recursion_witness :
    (diff_trees (fun _ => false) [] [] [] [("x", fsent.directory ⟨0, 0, 0⟩ [])]
        [("x", fsent.directory ⟨0, 1, 0⟩ [])]).filter (fun d => d.name == "x") =
      (if (diff_trees (fun _ => false) ["x"] ["x"] ["x"]
            (fsent.directory ⟨0, 0, 0⟩ []).children
            (fsent.directory ⟨0, 1, 0⟩ []).children).length = 0 then []
       else [diff.mk .contents (-1) "x" ["x"] ["x"]
          (diff_trees (fun _ => false) ["x"] ["x"] ["x"]
            (fsent.directory ⟨0, 0, 0⟩ []).children
            (fsent.directory ⟨0, 1, 0⟩ []).children)]) :=
  C7_directory_recursion (fun _ => false) [] [] []
    [("x", fsent.directory ⟨0, 0, 0⟩ [])] [("x", fsent.directory ⟨0, 1, 0⟩ [])] "x"
    (fsent.directory ⟨0, 0, 0⟩ []) (fsent.directory ⟨0, 1, 0⟩ [])
    (by simp [List.lookup]) (by simp [List.lookup]) rfl rfl rfl

/-- C8: a non-ignored name present on exactly one side yields exactly one
`missing` record, whose side index is 0 when the entry is absent from tree
A and 1 when it is absent from tree B, with no children, no paths, and no
further processing. -/
theorem C8_missing_single_record (ign : List String → Bool) (rel ap bp : List String)
    (aCh bCh : List (String × fsent)) (name : String)
    (hig : ign (rel ++ [name]) = false)
    (hxor : (aCh.lookup name).isSome ≠ (bCh.lookup name).isSome) :
    (diff_trees ign rel ap bp aCh bCh).filter (fun d => d.name == name) =
      [diff.mk .missing (if (aCh.lookup name).isSome then 1 else 0) name [] [] []] := by
  rw [filter_diff_trees, diff_name]
  split
  · simp_all
  · rename_i v ha hb
    simp [hig, ha]
  · rename_i v ha hb
    simp [hig, ha]
  · rename_i ha hb
    rw [ha, hb] at hxor
    simp at hxor

/-- Witness for C8: an entry present only in tree A produces exactly one
missing record with side 1 (absent from tree B). -/
theorem C8_missing_single_record_witness :
    (diff_trees (fun _ => false) [] [] [] [("x", fsent.special ⟨0, 0, 0⟩)]
        []).filter (fun d => d.name == "x") =
      [diff.mk .missing
        (if (List.lookup "x" [("x", fsent.special ⟨0, 0, 0⟩)]).isSome then 1 else 0)
        "x" [] [] []] :=
  C8_missing_single_record (fun _ => false) [] [] [] [("x", fsent.special ⟨0, 0, 0⟩)] []
    "x" rfl (by simp [List.lookup])

/-- Characterization of one name's block when the name is on both sides. -/
theorem diff_name_eq_both {aCh bCh : List (String × fsent)} {name : String}
    {a_child b_child : fsent} (ign : List String → Bool) (rel ap bp : List String)
    (h₁ : aCh.lookup name = some a_child) (h₂ : bCh.lookup name = some b_child) :
    diff_name ign rel ap bp aCh bCh name =
      (if ign (rel ++ [name]) then []
       else if a_child.ftype ≠ b_child.ftype then
         [diff.mk .file_type (-1) name [] [] []]
       else if a_child.ftype = .directory then
         (if (diff_trees ign (rel ++ [name]) (ap ++ [name]) (bp ++ [name])
              a_child.children b_child.children).length = 0 then []
          else [diff.mk .contents (-1) name (ap ++ [name]) (bp ++ [name])
            (diff_trees ign (rel ++ [name]) (ap ++ [name]) (bp ++ [name])
              a_child.children b_child.children)])
       else if (are_files_different a_child b_child).1 then
         [diff.mk .contents (-1) name [] [] []]
       else []) := by
  rw [diff_name]
  split
  all_goals simp_all
  rw [h₁, h₂]

/-- Characterization of one name's block when only the A side has it. -/
theorem diff_name_eq_left {aCh bCh : List (String × fsent)} {name : String}
    {a_child : fsent} (ign : List String → Bool) (rel ap bp : List String)
    (h₁ : aCh.lookup name = some a_child) (h₂ : bCh.lookup name = none) :
    diff_name ign rel ap bp aCh bCh name =
      (if ign (rel ++ [name]) then [] else [diff.mk .missing 1 name [] [] []]) := by
  rw [diff_name]
  split
  all_goals simp_all

/-- Characterization of one name's block when only the B side has it. -/
theorem diff_name_eq_right {aCh bCh : List (String × fsent)} {name : String}
    {b_child : fsent} (ign : List String → Bool) (rel ap bp : List String)
    (h₁ : aCh.lookup name = none) (h₂ : bCh.lookup name = some b_child) :
    diff_name ign rel ap bp aCh bCh name =
      (if ign (rel ++ [name]) then [] else [diff.mk .missing 0 name [] [] []]) := by
  rw [diff_name]
  split
  all_goals simp_all

/-- Characterization of one name's block when neither side has it. -/
theorem diff_name_eq_none {aCh bCh : List (String × fsent)} {name : String}
    (ign : List String → Bool) (rel ap bp : List String)
    (h₁ : aCh.lookup name = none) (h₂ : bCh.lookup name = none) :
    diff_name ign rel ap bp aCh bCh name = [] := by
  rw [diff_name]
  split
  all_goals simp_all

/-- The union of child names does not depend on the argument order. -/
theorem union_names_comm (aCh bCh : List (String × fsent)) :
    union_names bCh aCh = union_names aCh bCh := by
  unfold union_names
  apply List.eq_of_perm_of_sorted (r := (· ≤ ·))
  · refine ((List.perm_insertionSort _ _).trans ?_).trans (List.perm_insertionSort _ _).symm
    refine (List.perm_ext_iff_of_nodup (List.nodup_dedup _) (List.nodup_dedup _)).2 ?_
    intro x
    simp only [List.mem_dedup, List.mem_append]
    exact or_comm
  · exact List.sorted_insertionSort _ _
  · exact List.sorted_insertionSort _ _

/-- Unfolding of `diff.mirror` on a record. -/
theorem diff_mirror_mk (t : diff_type) (n : Int) (nm : String) (ap bp : List String)
    (subs : List diff) :
    diff.mirror (.mk t n nm ap bp subs) =
      .mk t (if t = .missing then 1 - n else n) nm bp ap (subs.map diff.mirror) := by
  rw [diff.mirror]
  congr 1
  exact List.attach_map_val subs diff.mirror

/-- The oracle's verdict does not depend on the order of its (same-type)
arguments: each of its comparisons is symmetric. -/
theorem are_files_different_symm (a b : fsent) (hty : a.ftype = b.ftype) :
    (are_files_different b a).1 = (are_files_different a b).1 := by
  cases a with
  | regular m₁ c₁ =>
    cases b with
    | regular m₂ c₂ =>
      by_cases h1 : c₁.length = c₂.length
      · have h1' : c₂.length = c₁.length := h1.symm
        by_cases h2 : m₁.dev = m₂.dev ∧ m₁.ino = m₂.ino
        · simp [are_files_different, fsent.ftype, fsent.file_size, fsent.meta, h1, h2.1, h2.2]
        · have h2' : ¬(m₂.dev = m₁.dev ∧ m₂.ino = m₁.ino) := fun hh => h2 ⟨hh.1.symm, hh.2.symm⟩
          simp [are_files_different, fsent.ftype, fsent.file_size, fsent.meta, fsent.content,
            h1, h2, h2', chunk_loop_correct, ne_comm]
      · have h1' : ¬(c₂.length = c₁.length) := fun hh => h1 hh.symm
        simp [are_files_different, fsent.ftype, fsent.file_size, h1, h1']
    | symlink m₂ t₂ => simp [fsent.ftype] at hty
    | special m₂ => simp [fsent.ftype] at hty
    | directory m₂ ch₂ => simp [fsent.ftype] at hty
  | symlink m₁ t₁ =>
    cases b with
    | regular m₂ c₂ => simp [fsent.ftype] at hty
    | symlink m₂ t₂ =>
      by_cases h2 : m₁.dev = m₂.dev ∧ m₁.ino = m₂.ino
      · simp [are_files_different, fsent.ftype, fsent.meta, h2.1, h2.2]
      · have h2' : ¬(m₂.dev = m₁.dev ∧ m₂.ino = m₁.ino) := fun hh => h2 ⟨hh.1.symm, hh.2.symm⟩
        simp [are_files_different, fsent.ftype, fsent.meta, fsent.target, h2, h2', ne_comm]
    | special m₂ => simp [fsent.ftype] at hty
    | directory m₂ ch₂ => simp [fsent.ftype] at hty
  | special m₁ =>
    cases b with
    | regular m₂ c₂ => simp [fsent.ftype] at hty
    | symlink m₂ t₂ => simp [fsent.ftype] at hty
    | special m₂ =>
      by_cases h2 : m₁.dev = m₂.dev ∧ m₁.ino = m₂.ino
      · simp [are_files_different, fsent.ftype, fsent.meta, h2.1, h2.2]
      · have h2' : ¬(m₂.dev = m₁.dev ∧ m₂.ino = m₁.ino) := fun hh => h2 ⟨hh.1.symm, hh.2.symm⟩
        simp [are_files_different, fsent.ftype, fsent.meta, h2, h2', ne_comm]
    | directory m₂ ch₂ => simp [fsent.ftype] at hty
  | directory m₁ ch₁ =>
    cases b with
    | regular m₂ c₂ => simp [fsent.ftype] at hty
    | symlink m₂ t₂ => simp [fsent.ftype] at hty
    | special m₂ => simp [fsent.ftype] at hty
    | directory m₂ ch₂ =>
      by_cases h2 : m₁.dev = m₂.dev ∧ m₁.ino = m₂.ino
      · simp [are_files_different, fsent.ftype, fsent.meta, h2.1, h2.2]
      · have h2' : ¬(m₂.dev = m₁.dev ∧ m₂.ino = m₁.ino) := fun hh => h2 ⟨hh.1.symm, hh.2.symm⟩
        simp [are_files_different, fsent.ftype, fsent.meta, h2, h2', ne_comm]

/-- A looked-up entry is structurally smaller than the map. -/
theorem lookup_sizeOf_lt {l : List (String × fsent)} {key : String} {v : fsent}
    (h : l.lookup key = some v) : sizeOf v < sizeOf l := by
  induction l with
  | nil => simp [List.lookup] at h
  | cons p t ih =>
    obtain ⟨k, w⟩ := p
    rw [List.lookup] at h
    by_cases hk : (key == k)
    · rw [hk] at h
      simp only [Option.some.injEq] at h
      subst h
      simp only [List.cons.sizeOf_spec, Prod.mk.sizeOf_spec]
      omega
    · rw [Bool.not_eq_true] at hk
      rw [hk] at h
      have := ih h
      simp only [List.cons.sizeOf_spec, Prod.mk.sizeOf_spec]
      omega

/-- The children of an entry are structurally smaller than the entry. -/
theorem children_sizeOf_lt (v : fsent) : sizeOf v.children < sizeOf v := by
  cases v with
  | regular m c =>
    obtain ⟨x, y, z⟩ := m
    simp only [fsent.children, fsent.regular.sizeOf_spec, EntryMeta.mk.sizeOf_spec,
      List.nil.sizeOf_spec]
    omega
  | symlink m t =>
    obtain ⟨x, y, z⟩ := m
    simp only [fsent.children, fsent.symlink.sizeOf_spec, EntryMeta.mk.sizeOf_spec,
      List.nil.sizeOf_spec]
    omega
  | special m =>
    obtain ⟨x, y, z⟩ := m
    simp only [fsent.children, fsent.special.sizeOf_spec, EntryMeta.mk.sizeOf_spec,
      List.nil.sizeOf_spec]
    omega
  | directory m ch =>
    obtain ⟨x, y, z⟩ := m
    simp only [fsent.children, fsent.directory.sizeOf_spec, EntryMeta.mk.sizeOf_spec]
    omega

/-- A looked-up entry is no taller than the height of the children list. -/
theorem height_lookup_le {l : List (String × fsent)} {key : String} {v : fsent}
    (h : l.lookup key = some v) : v.height ≤ heightCh l := by
  induction l with
  | nil => simp [List.lookup] at h
  | cons p t ih =>
    obtain ⟨k, w⟩ := p
    rw [List.lookup] at h
    rw [heightCh]
    by_cases hk : (key == k)
    · rw [hk] at h
      simp only [Option.some.injEq] at h
      subst h
      exact le_max_left _ _
    · rw [Bool.not_eq_true] at hk
      rw [hk] at h
      exact le_trans (ih h) (le_max_right _ _)

/-- The loop over the names is the concatenation of the per-name blocks. -/
theorem diff_children_eq_flatten (ign : List String → Bool) (rel ap bp : List String)
    (aCh bCh : List (String × fsent)) :
    ∀ (names : List String), diff_children ign rel ap bp aCh bCh names =
      (names.map (diff_name ign rel ap bp aCh bCh)).flatten := by
  intro names
  induction names with
  | nil =>
    rw [diff_children]
    simp
  | cons nm rest ih =>
    rw [diff_children]
    simp [ih]

/-- Auxiliary strong induction for the symmetry of `diff_trees`. -/
theorem diff_trees_symm_aux :
    ∀ (N : Nat) (aCh bCh : List (String × fsent)), sizeOf aCh ≤ N →
      ∀ (ign : List String → Bool) (rel ap bp : List String),
        diff_trees ign rel bp ap bCh aCh =
          (diff_trees ign rel ap bp aCh bCh).map diff.mirror := by
  intro N
  induction N with
  | zero =>
    intro aCh bCh hle
    exfalso
    have h1 : 1 ≤ sizeOf aCh := by
      cases aCh <;> simp_arith [List.cons.sizeOf_spec]
    omega
  | succ n ih =>
    intro aCh bCh hle ign rel ap bp
    rw [diff_trees, diff_trees, union_names_comm]
    have main : ∀ (names : List String),
        diff_children ign rel bp ap bCh aCh names =
          (diff_children ign rel ap bp aCh bCh names).map diff.mirror := by
      intro names
      induction names with
      | nil =>
        rw [diff_children, diff_children]
        rfl
      | cons nm rest ihn =>
        have hname : diff_name ign rel bp ap bCh aCh nm =
            (diff_name ign rel ap bp aCh bCh nm).map diff.mirror := by
          cases ha : aCh.lookup nm with
          | none =>
            cases hb : bCh.lookup nm with
            | none =>
              rw [diff_name_eq_none ign rel bp ap hb ha, diff_name_eq_none ign rel ap bp ha hb]
              rfl
            | some vb =>
              rw [diff_name_eq_left ign rel bp ap hb ha, diff_name_eq_right ign rel ap bp ha hb]
              by_cases hig : ign (rel ++ [nm])
              · simp [hig]
              · simp [hig, diff_mirror_mk]
          | some va =>
            cases hb : bCh.lookup nm with
            | none =>
              rw [diff_name_eq_right ign rel bp ap hb ha, diff_name_eq_left ign rel ap bp ha hb]
              by_cases hig : ign (rel ++ [nm])
              · simp [hig]
              · simp [hig, diff_mirror_mk]
            | some vb =>
              rw [diff_name_eq_both ign rel bp ap hb ha, diff_name_eq_both ign rel ap bp ha hb]
              by_cases hig : ign (rel ++ [nm])
              · simp [hig]
              · by_cases hty : va.ftype = vb.ftype
                · by_cases hdir : va.ftype = .directory
                  · have hsub : diff_trees ign (rel ++ [nm]) (bp ++ [nm]) (ap ++ [nm])
                        vb.children va.children =
                        (diff_trees ign (rel ++ [nm]) (ap ++ [nm]) (bp ++ [nm])
                          va.children vb.children).map diff.mirror := by
                      apply ih
                      have hv := lookup_sizeOf_lt ha
                      have hc := children_sizeOf_lt va
                      omega
                    have hdir' : vb.ftype = .directory := hty ▸ hdir
                    simp only [hig, hty, hdir, hdir', diff_mirror_mk, hsub, if_false,
                      Bool.false_eq_true, ne_eq, not_true_eq_false, if_true, ite_false,
                      ite_true, List.length_map, List.map_nil]
                    all_goals first
                      | (split <;> simp [diff_mirror_mk])
                      | simp [diff_mirror_mk]
                  · have hsym := are_files_different_symm va vb hty
                    have hdir' : ¬ vb.ftype = .directory := hty ▸ hdir
                    simp only [hig, hty, hdir, hdir', hsym, Bool.false_eq_true, ne_eq,
                      not_true_eq_false, if_false, ite_false, ite_true]
                    all_goals first
                      | (split <;> simp [diff_mirror_mk])
                      | simp [diff_mirror_mk]
                · have hty' : vb.ftype ≠ va.ftype := fun h => hty h.symm
                  simp [hig, hty, hty', diff_mirror_mk]
        rw [diff_children, diff_children, List.map_append, ihn, hname]
    exact main _

/-- C9: diffing (A, B) and (B, A) yields mirrored results: the same
records at every level with the two sides exchanged — `missing` records
have their side index swapped (0 becomes 1 and vice versa), `file_type`
and `contents` records are identical up to swapping the stored paths, and
sub-records are mirrored recursively.  Proved for an arbitrary ignore
filter, hence in particular with no ignore patterns active. -/
theorem C9_symmetry (ign : List String → Bool) (rel ap bp : List String)
    (aCh bCh : List (String × fsent)) :
    diff_trees ign rel bp ap bCh aCh =
      (diff_trees ign rel ap bp aCh bCh).map diff.mirror :=
  diff_trees_symm_aux (sizeOf aCh) aCh bCh le_rfl ign rel ap bp

/-- A directory's height is one more than its children's. -/
theorem height_of_directory (v : fsent) (hv : v.ftype = .directory) :
    v.height = heightCh v.children + 1 := by
  cases v <;> simp_all [fsent.ftype, fsent.height, fsent.children]

/-- The fuel-budgeted traversal agrees with `diff_trees` whenever the fuel
exceeds the height of the A-side directory tree. -/
theorem diff_trees_fuel_spec :
    ∀ (fuel : Nat) (ign : List String → Bool) (rel ap bp : List String)
      (aCh bCh : List (String × fsent)), heightCh aCh < fuel →
      diff_trees_fuel ign rel ap bp aCh bCh fuel =
        some (diff_trees ign rel ap bp aCh bCh) := by
  intro fuel
  induction fuel with
  | zero =>
    intro ign rel ap bp aCh bCh hh
    exact absurd hh (Nat.not_lt_zero _)
  | succ n ih =>
    intro ign rel ap bp aCh bCh hh
    have hdnf : ∀ (name : String),
        diff_name_fuel ign rel ap bp aCh bCh n name =
          some (diff_name ign rel ap bp aCh bCh name) := by
      intro name
      cases ha : aCh.lookup name with
      | none =>
        cases hb : bCh.lookup name with
        | none =>
          rw [diff_name_eq_none ign rel ap bp ha hb, diff_name_fuel, ha, hb]
        | some vb =>
          rw [diff_name_eq_right ign rel ap bp ha hb, diff_name_fuel, ha, hb]
      | some va =>
        cases hb : bCh.lookup name with
        | none =>
          rw [diff_name_eq_left ign rel ap bp ha hb, diff_name_fuel, ha, hb]
        | some vb =>
          rw [diff_name_eq_both ign rel ap bp ha hb, diff_name_fuel, ha, hb]
          by_cases hig : ign (rel ++ [name])
          · simp [hig]
          · by_cases hty : va.ftype = vb.ftype
            · by_cases hdir : va.ftype = .directory
              · have hrec : diff_trees_fuel ign (rel ++ [name]) (ap ++ [name])
                    (bp ++ [name]) va.children vb.children n =
                    some (diff_trees ign (rel ++ [name]) (ap ++ [name]) (bp ++ [name])
                      va.children vb.children) := by
                  apply ih
                  have h1 := height_lookup_le ha
                  have h2 := height_of_directory va hdir
                  omega
                have hdirb : vb.ftype = .directory := hty ▸ hdir
                simp [hig, hty, hdir, hdirb, hrec]
              · have hdirb : ¬ vb.ftype = .directory := hty ▸ hdir
                simp only [hig, hty, hdirb, Bool.false_eq_true, if_false, ite_false,
                  ite_true, ne_eq, not_true_eq_false]
                split <;> simp
            · simp [hig, hty]
    have hdcf : ∀ (names : List String),
        diff_children_fuel ign rel ap bp aCh bCh n names =
          some (diff_children ign rel ap bp aCh bCh names) := by
      intro names
      induction names with
      | nil =>
        rw [diff_children_fuel, diff_children]
      | cons nm rest ihn =>
        rw [diff_children_fuel, diff_children, hdnf, ihn]
    rw [diff_trees_fuel, diff_trees, hdcf]

/-- C10: the recursion of `diff_trees` is well-founded on the height of
the real (non-symlink) directory tree: it recurses only when both entries
are directories by symlink-aware type, symlinks are leaves that are never
descended into, and a fuel budget exceeding the height of the A-side tree
never runs out — the budgeted traversal completes with exactly the result
of the total function. -/
theorem C10_terminates_on_height (ign : List String → Bool) (rel ap bp : List String)
    (aCh bCh : List (String × fsent)) (fuel : Nat) (hfuel : heightCh aCh < fuel) :
    diff_trees_fuel ign rel ap bp aCh bCh fuel =
      some (diff_trees ign rel ap bp aCh bCh) :=
  diff_trees_fuel_spec fuel ign rel ap bp aCh bCh hfuel

/-- Witness for C10: on a pair of empty directories (height 0) one unit of
fuel suffices. -/
theorem C10_terminates_on_height_witness :
    heightCh [] < 1 ∧
    diff_trees_fuel (fun _ => false) [] [] [] [] [] 1 =
      some (diff_trees (fun _ => false) [] [] [] [] []) :=
  ⟨by decide, C10_terminates_on_height (fun _ => false) [] [] [] [] [] 1 (by decide)⟩

end DirDiff
